import Mathlib

/-!
Shallow embedding of the SoftoVault SDK `Vault` class (src: index.js).

The embedding translates, from the source:
  * `_makeRequest` (retry loop, per-attempt timeout, error classification),
  * `_isCacheValid` / `_setCache` / `clearCache` (TTL cache),
  * `get`, `getMany`, `exists` (secret access façade).

Modelling conventions:
  * JS numbers used as timestamps/durations are `Int` (overflow irrelevant,
    subtraction may be negative under clock skew).
  * A JS value that may be `undefined` is an `Option`.
  * Thrown JS `Error` objects are the `JsError` structure; a plain
    `new Error(msg)` has `status`, `statusText` and `data` all `none`
    (reading an absent property yields `undefined`).
  * One network attempt (`fetch` + `response.json()`) is an `AttemptOutcome`
    supplied by an abstract backend `Nat → AttemptOutcome` (attempt index →
    outcome); `netFail` covers both network-level rejections and the
    `AbortController` timeout (neither carries a `status` property).
  * The loop in `_makeRequest` is recursion on the number of remaining
    attempts (`remaining = retries - attempt`); a `for` iteration that
    throws terminally or on the last attempt is a base case.
-/

namespace SoftoVault

/-- Relevant fields of a parsed JSON body: `message` (read on error
bodies) and `value` (read on single-secret success bodies). A field that
is absent in the JSON object is `none` (`undefined` in JS). -/
structure JsonVal where
  message : Option String := none
  value : Option String := none
deriving DecidableEq, Repr

/-- A thrown JS error. `status`/`statusText`/`data` are the ad-hoc
properties `_makeRequest` attaches to HTTP errors; on any other error
(network failure, abort, JSON parse error, plain `new Error`) reading
them yields `undefined` (`none`). -/
structure JsError where
  message : String
  status : Option Nat := none
  statusText : Option String := none
  data : Option JsonVal := none
deriving DecidableEq, Repr

/-- An HTTP response: status, status text, and the result of
`response.json()` (`none` when the body is not valid JSON). -/
structure Response where
  status : Nat
  statusText : String
  jsonBody : Option JsonVal
deriving DecidableEq, Repr

/-- `response.ok`: status in [200, 300). -/
def Response.ok (r : Response) : Bool :=
  if 200 ≤ r.status ∧ r.status < 300 then true else false

/-- Outcome of one `fetch` attempt: a response, or a network-level
rejection / timeout abort carrying only a message. -/
inductive AttemptOutcome where
  | resp (r : Response)
  | netFail (msg : String)
deriving DecidableEq, Repr

/-- Model of the `SyntaxError` thrown by `response.json()` on a
malformed body of a success response (no `status` property). -/
def jsonSyntaxError : JsError :=
  { message := "Unexpected token in JSON" }

/-- The error object built by `_makeRequest` for a non-ok response:
`errorData` is the parsed error body with fallback `{}`; the message is
`errorData.message || "HTTP <status>: <statusText>"` (an empty-string
`message` field is falsy in JS and falls back). -/
def httpErrorOf (r : Response) : JsError :=
  let errorData := r.jsonBody.getD {}
  let fallback := "HTTP " ++ toString r.status ++ ": " ++ r.statusText
  { message :=
      match errorData.message with
      | some m => if m = "" then fallback else m
      | none => fallback
    status := some r.status
    statusText := some r.statusText
    data := some errorData }

/-- One iteration of the `try` block of `_makeRequest`: perform the
fetch, throw the constructed HTTP error on a non-ok response, parse the
success body (throwing a status-less `SyntaxError` when malformed). -/
def attemptOnce (backend : Nat → AttemptOutcome) (attempt : Nat) :
    Except JsError JsonVal :=
  match backend attempt with
  | .netFail msg => .error { message := msg }
  | .resp r =>
    if r.ok then
      match r.jsonBody with
      | some j => .ok j
      | none => .error jsonSyntaxError
    else
      .error (httpErrorOf r)

/-- Source condition `error.status >= 400 && error.status < 500 &&
error.status !== 429` on a status value. -/
def terminalStatus (st : Nat) : Bool :=
  if 400 ≤ st ∧ st < 500 ∧ st ≠ 429 then true else false

/-- The terminal-error test of the catch block; an error without a
`status` property is never terminal (`undefined >= 400` is false). -/
def isTerminal4xx (e : JsError) : Bool :=
  match e.status with
  | some st => terminalStatus st
  | none => false

/-- Result of a `_makeRequest` call: the returned payload or thrown
error, the number of fetch attempts performed, and the list of backoff
delays slept (in order). -/
structure ReqRun where
  result : Except JsError JsonVal
  attempts : Nat
  sleeps : List Nat
deriving Repr

/-- The retry loop of `_makeRequest`, as recursion on the number of
remaining attempts after the current one. On the last attempt
(`remaining = 0`) any caught error is rethrown, whether terminal or not
(the source checks the terminal condition first; both branches throw,
so they are collapsed here). -/
def goReq (backend : Nat → AttemptOutcome) : Nat → Nat → ReqRun
  | attempt, 0 =>
    match attemptOnce backend attempt with
    | .ok j => ⟨.ok j, 1, []⟩
    | .error e => ⟨.error e, 1, []⟩
  | attempt, remaining + 1 =>
    match attemptOnce backend attempt with
    | .ok j => ⟨.ok j, 1, []⟩
    | .error e =>
      if isTerminal4xx e then ⟨.error e, 1, []⟩
      else
        let rest := goReq backend (attempt + 1) remaining
        ⟨rest.result, rest.attempts + 1, 2 ^ attempt * 1000 :: rest.sleeps⟩

/-- `_makeRequest`: run the loop from attempt 0 with
`this.config.retries` further attempts allowed. -/
def makeRequest (retries : Nat) (backend : Nat → AttemptOutcome) : ReqRun :=
  goReq backend 0 retries

/-- An attempt outcome the loop classifies as retryable: a network-level
failure / timeout, a malformed success body, or a non-ok status outside
[400,500)\x7b429\x7d. -/
def retryableOutcome (o : AttemptOutcome) : Bool :=
  match o with
  | .netFail _ => true
  | .resp r => if r.ok then r.jsonBody.isNone else !terminalStatus r.status

/-! ### Header assembly of `_makeRequest`

`requestOptions` is built as an object literal: a `headers` field merging
the three defaults with `options.headers`, then a `timeout` field, then
the spread of the whole `options` object. In a JS object literal a
later duplicate key overrides an earlier one, so when `options` itself
carries a `headers` key, that value replaces the merged headers
wholesale. Header objects are association lists where the LAST binding
of a key wins (JS object update semantics); `objGet` is property read. -/

/-- Read property `k` of a JS-object-as-association-list (last binding
of a duplicated key wins, as in JS object literals). -/
def objGet (o : List (String × String)) (k : String) : Option String :=
  (o.reverse.find? (fun p => p.1 == k)).map (fun p => p.2)

/-- The three default headers attached by `_makeRequest`. -/
def defaultHeaders (apiKey : String) : List (String × String) :=
  [("Authorization", "Bearer " ++ apiKey),
   ("Content-Type", "application/json"),
   ("User-Agent", "SoftoVault-SDK/0.1.0")]

/-- The caller-supplied `options` argument of `_makeRequest`, reduced to
the one field that affects headers: `headers` is `none` when the caller
supplied no `headers` property. Other option fields (method, body, ...)
never collide with the `headers` key and are omitted. -/
structure ReqOptions where
  headers : Option (List (String × String)) := none

/-- The inner merge `{...defaults, ...options.headers}` (spreading
`undefined` adds nothing). -/
def mergedHeaders (apiKey : String) (options : ReqOptions) : List (String × String) :=
  defaultHeaders apiKey ++ options.headers.getD []

/-- The `headers` property of the final `requestOptions` object: the
trailing `...options` spread overrides the earlier `headers` field
whenever `options` has a `headers` key of its own. -/
def finalHeaders (apiKey : String) (options : ReqOptions) : List (String × String) :=
  match options.headers with
  | some h => h
  | none => mergedHeaders apiKey options

/-! ### Vault state: resolved config and TTL cache -/

/-- `data.value` of a single-secret payload; `none` models `undefined`
(payload without a `value` field). -/
abbrev SecretVal := Option String

/-- The mutable state of a `Vault` instance that the claims touch: the
resolved configuration fields and the two cache `Map`s (modelled as
lookup functions; `Map.get` on an absent key is `undefined`/`none`). -/
structure VaultState where
  cacheEnabled : Bool
  cacheTTL : Int
  retries : Nat
  cache : String → Option SecretVal
  cacheTimestamps : String → Option Int

/-- `_isCacheValid`: false when caching is disabled or the key is
absent; otherwise `timestamp && (Date.now() - timestamp) < cacheTTL`,
where a timestamp of `0` is falsy in JS. -/
def isCacheValid (s : VaultState) (now : Int) (key : String) : Bool :=
  if s.cacheEnabled = false then false
  else if (s.cache key).isNone then false
  else
    match s.cacheTimestamps key with
    | none => false
    | some ts => if ts ≠ 0 ∧ now - ts < s.cacheTTL then true else false

/-- `_setCache`: no-op when caching is disabled, else overwrite value
and timestamp for the key. -/
def setCache (s : VaultState) (now : Int) (key : String) (value : SecretVal) :
    VaultState :=
  if s.cacheEnabled = false then s
  else
    { s with
      cache := fun k => if k = key then some value else s.cache k
      cacheTimestamps := fun k => if k = key then some now else s.cacheTimestamps k }

/-- `clearCache`: clear both maps when caching is enabled, else no-op. -/
def clearCache (s : VaultState) : VaultState :=
  if s.cacheEnabled then
    { s with cache := fun _ => none, cacheTimestamps := fun _ => none }
  else s

/-! ### Secret access façade -/

/-- The endpoints the façade requests. `secret k` stands for
`/key/(encodeURIComponent k)`; URL percent-encoding is injective on
keys and not itself claim-relevant, so endpoints are kept symbolic. -/
inductive Endpoint where
  | secret (k : String)
  | all
  | info
deriving DecidableEq, Repr

/-- The network, abstractly: for each endpoint and attempt index, the
outcome of that fetch attempt. -/
abbrev Net := Endpoint → Nat → AttemptOutcome

/-- The error thrown by `get` on a key that is not a non-empty string. -/
def invalidKeyError : JsError :=
  { message := "Secret key must be a non-empty string" }

/-- The error thrown by `getMany` on a non-array argument. -/
def notArrayError : JsError :=
  { message := "Keys must be an array" }

/-- Message of the domain NotFound error: the source template
interpolates the key between single quotes. -/
def notFoundMsg (key : String) : String :=
  "Secret with key \x27" ++ key ++ "\x27 not found"

/-- The fresh `new Error(...)` that `get` throws when the propagated
error has `status === 404`; it carries only a message. -/
def notFoundError (key : String) : JsError :=
  { message := notFoundMsg key }

/-- Cache key of `get`: namespaced as `"secret:" + key`. -/
def secretCacheKey (key : String) : String := "secret:" ++ key

/-- Result of one `get` call: the returned value or thrown error, the
instance state afterwards, and how many fetch attempts were issued
(0 = no network call). -/
structure GetResult where
  result : Except JsError SecretVal
  state : VaultState
  fetchCalls : Nat

/-- `get(key, options)` for a string `key`; `useCache` is
`options.useCache !== false`. Validation, cache fast path, network via
`_makeRequest`, caching of the fetched `value` field, and 404 → NotFound
mapping, translated from the source. -/
def vaultGet (s : VaultState) (net : Net) (now : Int) (key : String)
    (useCache : Bool) : GetResult :=
  if key = "" then ⟨.error invalidKeyError, s, 0⟩
  else
    let cacheKey := secretCacheKey key
    if useCache && isCacheValid s now cacheKey then
      ⟨.ok ((s.cache cacheKey).getD none), s, 0⟩
    else
      let run := makeRequest s.retries (net (.secret key))
      match run.result with
      | .ok data =>
        let value := data.value
        let s2 := if useCache then setCache s now cacheKey value else s
        ⟨.ok value, s2, run.attempts⟩
      | .error e =>
        if e.status = some 404 then ⟨.error (notFoundError key), s, run.attempts⟩
        else ⟨.error e, s, run.attempts⟩

/-- A JS value passed as an element of the `keys` array: a string or a
non-string (represented by a number, the shape of the counterexamples).
`typeof key !== 'string'` distinguishes exactly these. -/
inductive JKey where
  | str (s : String)
  | num (n : Int)
deriving DecidableEq, Repr

/-- The property key a JS value becomes when used as an object index
(`results[key]` coerces the index to a string). -/
def propKey : JKey → String
  | .str s => s
  | .num n => toString n

/-- The validation `get` performs on its argument: a non-empty string
(`!key || typeof key !== 'string'` rejects everything else). -/
def isNonEmptyStr : JKey → Bool
  | .str s => if s = "" then false else true
  | .num _ => false

/-- `get` on a dynamically-typed key, as invoked from `getMany`: a
non-string argument fails validation with no network call. -/
def getDyn (s : VaultState) (net : Net) (now : Int) (k : JKey)
    (useCache : Bool) : GetResult :=
  match k with
  | .str str => vaultGet s net now str useCache
  | .num _ => ⟨.error invalidKeyError, s, 0⟩

/-- Does `sub` occur contiguously in `s`? -/
def listHasSub (sub s : List Char) : Bool :=
  (List.range (s.length + 1)).any (fun i => sub.isPrefixOf (s.drop i))

/-- Model of JS `String.prototype.includes`, over the character lists
of the strings. -/
def containsSub (s sub : String) : Bool := listHasSub sub.data s.data

/-- `exists(key)` (named `vaultExists`; `exists` is a keyword). -/
def vaultExists (s : VaultState) (net : Net) (now : Int) (key : String) :
    Except JsError Bool :=
  match (vaultGet s net now key true).result with
  | .ok _ => .ok true
  | .error e =>
    if e.status = some 404 ∨ containsSub e.message "not found" then .ok false
    else .error e

/-! ### getMany

`Promise.allSettled(keys.map(async key => ...))`: every per-key `get`
starts synchronously from the same initial state (the cache fast path
runs before any `await` resumes), so each key's outcome is `getDyn`
from the initial state. `results` is a JS object written once per key;
since outcomes are functions of the key alone, completion order cannot
change the final object, and the fold below fixes input order. The
errors array is only appended to when `options.failOnMissing` is set. -/

/-- The `keys` argument: an array of JS values, or a non-array. -/
inductive KeysArg where
  | arr (ks : List JKey)
  | notArray
deriving Repr

/-- An entry of the `results` object: `null` (recorded for a failed key
in default mode) or the value returned by `get`. -/
inductive RVal where
  | nullv
  | val (v : SecretVal)
deriving DecidableEq, Repr

/-- The `results` object, as property lookup. -/
abbrev ResultsMap := String → Option RVal

/-- JS property write `results[k] = v`. -/
def updateMap (m : ResultsMap) (k : String) (v : RVal) : ResultsMap :=
  fun x => if x = k then some v else m x

/-- Settling one key of `getMany`: record the value on success; on
failure push `(key, error.message)` when `failOnMissing`, else record
`null`. -/
def manyStep (s : VaultState) (net : Net) (now : Int)
    (useCache failOnMissing : Bool)
    (acc : ResultsMap × List (String × String)) (k : JKey) :
    ResultsMap × List (String × String) :=
  match (getDyn s net now k useCache).result with
  | .ok v => (updateMap acc.1 (propKey k) (.val v), acc.2)
  | .error e =>
    if failOnMissing then (acc.1, acc.2 ++ [(propKey k, e.message)])
    else (updateMap acc.1 (propKey k) .nullv, acc.2)

/-- The aggregate error message:
`"Failed to retrieve secrets: " + errors.map(e => key + ": " + msg).join(", ")`. -/
def aggMessage (errors : List (String × String)) : String :=
  "Failed to retrieve secrets: " ++
    String.intercalate ", " (errors.map (fun p => p.1 ++ ": " ++ p.2))

/-- `getMany(keys, options)`: array check, settle every key, then raise
the aggregate error iff `failOnMissing` is set and some key failed. -/
def getMany (s : VaultState) (net : Net) (now : Int) (keys : KeysArg)
    (useCache failOnMissing : Bool) : Except JsError ResultsMap :=
  match keys with
  | .notArray => .error notArrayError
  | .arr ks =>
    let folded := ks.foldl (manyStep s net now useCache failOnMissing)
      (fun _ => none, [])
    if 0 < folded.2.length ∧ failOnMissing = true then
      .error { message := aggMessage folded.2 }
    else
      .ok folded.1

/-! ### Concrete states and backends used by witnesses and
counterexamples -/

/-- Backend that always answers 400 with an error body. -/
def b400 : Nat → AttemptOutcome :=
  fun _ => .resp ⟨400, "Bad Request", some { message := some "bad" }⟩

/-- Backend that always answers 429. -/
def b429 : Nat → AttemptOutcome :=
  fun _ => .resp ⟨429, "Too Many Requests", some {}⟩

/-- Backend whose fetch always rejects at the network level. -/
def bNetDown : Nat → AttemptOutcome := fun _ => .netFail "fetch failed"

/-- Backend that always answers 500. -/
def b500 : Nat → AttemptOutcome :=
  fun _ => .resp ⟨500, "Internal Server Error", some {}⟩

/-- Backend that always answers 2xx with a malformed JSON body. -/
def bMalformed : Nat → AttemptOutcome := fun _ => .resp ⟨200, "OK", none⟩

/-- Cache state with an entry for "k" stored at timestamp 0. -/
def zeroTsState : VaultState :=
  { cacheEnabled := true
    cacheTTL := 10
    retries := 3
    cache := fun k => if k = "k" then some (some "v") else none
    cacheTimestamps := fun k => if k = "k" then some 0 else none }

/-- Cache state with an entry for "k" stored at timestamp 3, TTL 10. -/
def cacheStateW : VaultState :=
  { cacheEnabled := true
    cacheTTL := 10
    retries := 0
    cache := fun k => if k = "k" then some (some "v") else none
    cacheTimestamps := fun k => if k = "k" then some 3 else none }

/-- Vault state with caching disabled and no retries. -/
def sPlain : VaultState :=
  ⟨false, 300000, 0, fun _ => none, fun _ => none⟩

/-- Backend where the secret "a" exists with value "va" and every other
secret endpoint answers 404. -/
def netAB : Net := fun e _ =>
  match e with
  | .secret "a" => .resp ⟨200, "OK", some { value := some "va" }⟩
  | .secret _ => .resp ⟨404, "Not Found", some {}⟩
  | _ => .resp ⟨500, "Internal Server Error", none⟩

/-- Cache-enabled state with empty cache, no retries, TTL 300000. -/
def sCacheOn : VaultState :=
  ⟨true, 300000, 0, fun _ => none, fun _ => none⟩

/-- Backend answering every request with value "vx". -/
def netX : Net := fun _ _ => .resp ⟨200, "OK", some { value := some "vx" }⟩

/-- Backend whose every fetch fails at the network level. -/
def netDead : Net := fun _ _ => .netFail "offline"

/-- The per-key `results` entry `getMany` computes for a string key:
the value on success, `null` on failure. -/
def strOutcome (s : VaultState) (net : Net) (now : Int) (useCache : Bool)
    (k : String) : RVal :=
  match (vaultGet s net now k useCache).result with
  | .ok v => .val v
  | .error _ => .nullv

/-- Whether `get` on a string key fails. -/
def strFails (s : VaultState) (net : Net) (now : Int) (useCache : Bool)
    (k : String) : Bool :=
  match (vaultGet s net now k useCache).result with
  | .ok _ => false
  | .error _ => true

/-- The message of the error `get` raises on a string key ("" when it
succeeds; only read for failing keys). -/
def strErrMsg (s : VaultState) (net : Net) (now : Int) (useCache : Bool)
    (k : String) : String :=
  match (vaultGet s net now k useCache).result with
  | .ok _ => ""
  | .error e => e.message

/-- Is a JS promise settled fulfilled (no raise)? -/
def isOkE {ε α : Type} : Except ε α → Bool
  | .ok _ => true
  | .error _ => false

/-- Read one property of a `getMany` result object. -/
def resultAt (r : Except JsError ResultsMap) (k : String) : Option RVal :=
  match r with
  | .ok m => m k
  | .error _ => none

/-! ## Helper lemmas about the retry loop -/

/-- Every `_makeRequest` run performs at least one fetch attempt. -/
theorem one_le_attempts (backend : Nat → AttemptOutcome) (attempt remaining : Nat) :
    1 ≤ (goReq backend attempt remaining).attempts := by
  cases remaining with
  | zero => cases h : attemptOnce backend attempt <;> simp [goReq, h]
  | succ r =>
    cases h : attemptOnce backend attempt with
    | ok j => simp [goReq, h]
    | error e =>
      by_cases ht : isTerminal4xx e = true
      · simp [goReq, h, ht]
      · simp [goReq, h, ht]

/-- A retryable attempt outcome makes `attemptOnce` throw a
non-terminal error. -/
theorem attemptOnce_of_retryable (backend : Nat → AttemptOutcome) (n : Nat)
    (h : retryableOutcome (backend n) = true) :
    ∃ e, attemptOnce backend n = .error e ∧ isTerminal4xx e = false := by
  cases hb : backend n with
  | netFail msg =>
    exact ⟨{ message := msg }, by simp [attemptOnce, hb], rfl⟩
  | resp r =>
    by_cases hok : r.ok = true
    · have hnone : r.jsonBody = none := by
        have := h
        simp only [retryableOutcome, hb, hok, if_true] at this
        exact Option.isNone_iff_eq_none.mp this
      exact ⟨jsonSyntaxError, by simp [attemptOnce, hb, hok, hnone], rfl⟩
    · have hok' : r.ok = false := by simpa using hok
      have hterm : terminalStatus r.status = false := by
        have := h
        simp only [retryableOutcome, hb] at this
        simpa [hok'] using this
      refine ⟨httpErrorOf r, by simp [attemptOnce, hb, hok'], ?_⟩
      simp [isTerminal4xx, httpErrorOf, hterm]

/-- Closed form of the loop when every attempt is retryable: all
attempts are spent, the backoff delays are `2 ^ i * 1000` for the
0-indexed attempts before the last, and the overall result is the last
attempt's. -/
theorem goReq_retryable (backend : Nat → AttemptOutcome)
    (h : ∀ n, retryableOutcome (backend n) = true) :
    ∀ remaining attempt,
      goReq backend attempt remaining =
        ⟨attemptOnce backend (attempt + remaining), remaining + 1,
         (List.range remaining).map (fun i => 2 ^ (attempt + i) * 1000)⟩ := by
  intro remaining
  induction remaining with
  | zero =>
    intro attempt
    obtain ⟨e, he, _⟩ := attemptOnce_of_retryable backend attempt (h attempt)
    simp [goReq, he]
  | succ r ih =>
    intro attempt
    obtain ⟨e, he, hterm⟩ := attemptOnce_of_retryable backend attempt (h attempt)
    have hrec := ih (attempt + 1)
    simp only [goReq, he, hterm, Bool.false_eq_true, if_false, hrec]
    simp only [ReqRun.mk.injEq]
    refine ⟨?_, trivial, ?_⟩
    · rw [show attempt + 1 + r = attempt + (r + 1) by omega]
    · rw [List.range_succ_eq_map, List.map_cons, List.map_map]
      refine congrArg₂ List.cons rfl (List.map_congr_left ?_)
      intro a _
      simp only [Function.comp]
      rw [show attempt + 1 + a = attempt + (a + 1) by omega]

/-! ## Claim theorems -/

/-- C2: a non-success status in [400,500) other than 429 on the first
attempt is terminal: the error — carrying the numeric status, the
status text and the parsed body — is raised after exactly one fetch and
no sleep, for every configured retry count. A 429 status, a 5xx status,
and a network-level failure / timeout on the first attempt each lead to
a second attempt whenever retries remain. -/
theorem terminal_and_retryable_classification
    (backend : Nat → AttemptOutcome) (retries : Nat) :
    (∀ r : Response, backend 0 = .resp r →
      400 ≤ r.status → r.status < 500 → r.status ≠ 429 →
        makeRequest retries backend = ⟨.error (httpErrorOf r), 1, []⟩ ∧
        (httpErrorOf r).status = some r.status ∧
        (httpErrorOf r).statusText = some r.statusText ∧
        (httpErrorOf r).data = some (r.jsonBody.getD {})) ∧
    (∀ r : Response, backend 0 = .resp r →
      (r.status = 429 ∨ 500 ≤ r.status) → 0 < retries →
        2 ≤ (makeRequest retries backend).attempts) ∧
    (∀ msg, backend 0 = .netFail msg → 0 < retries →
      2 ≤ (makeRequest retries backend).attempts) := by
  refine ⟨?_, ?_, ?_⟩
  · intro r hb h1 h2 h3
    have hok : r.ok = false := by
      simp only [Response.ok]
      rw [if_neg]
      omega
    have hterm : terminalStatus r.status = true := by
      simp only [terminalStatus]
      rw [if_pos ⟨h1, h2, h3⟩]
    have hao : attemptOnce backend 0 = .error (httpErrorOf r) := by
      simp [attemptOnce, hb, hok]
    have hit : isTerminal4xx (httpErrorOf r) = true := by
      simp [isTerminal4xx, httpErrorOf, hterm]
    refine ⟨?_, rfl, rfl, rfl⟩
    cases retries with
    | zero => simp [makeRequest, goReq, hao]
    | succ k => simp [makeRequest, goReq, hao, hit]
  · intro r hb hs hr
    have hok : r.ok = false := by
      simp only [Response.ok]
      rw [if_neg]
      omega
    have hterm : terminalStatus r.status = false := by
      simp only [terminalStatus]
      rw [if_neg]
      omega
    have hao : attemptOnce backend 0 = .error (httpErrorOf r) := by
      simp [attemptOnce, hb, hok]
    have hit : isTerminal4xx (httpErrorOf r) = false := by
      simp [isTerminal4xx, httpErrorOf, hterm]
    obtain ⟨k, rfl⟩ : ∃ k, retries = k + 1 := ⟨retries - 1, by omega⟩
    have hone := one_le_attempts backend 1 k
    simp [makeRequest, goReq, hao, hit]
    omega
  · intro msg hb hr
    have hao : attemptOnce backend 0 = .error { message := msg } := by
      simp [attemptOnce, hb]
    have hit : isTerminal4xx { message := msg } = false := rfl
    obtain ⟨k, rfl⟩ : ∃ k, retries = k + 1 := ⟨retries - 1, by omega⟩
    have hone := one_le_attempts backend 1 k
    simp [makeRequest, goReq, hao, hit]
    omega

/-- C2 witness: a 400 backend is fetched once and the raised error
carries status, status text and body; 429 and network-failure backends
are fetched at least twice when a retry remains. -/
theorem terminal_and_retryable_witness :
    makeRequest 3 b400 =
      ⟨.error { message := "bad", status := some 400,
                statusText := some "Bad Request",
                data := some { message := some "bad" } }, 1, []⟩ ∧
    2 ≤ (makeRequest 3 b429).attempts ∧
    2 ≤ (makeRequest 3 bNetDown).attempts := by
  refine ⟨?_, ?_, ?_⟩
  · have h := (terminal_and_retryable_classification b400 3).1
      ⟨400, "Bad Request", some { message := some "bad" }⟩ rfl
      (by decide) (by decide) (by decide)
    exact h.1.trans rfl
  · exact (terminal_and_retryable_classification b429 3).2.1
      ⟨429, "Too Many Requests", some {}⟩ rfl (Or.inl rfl) (by decide)
  · exact (terminal_and_retryable_classification bNetDown 3).2.2
      "fetch failed" rfl (by decide)

/-- C3: against a backend whose every attempt outcome is retryable, the
executor performs exactly `retries + 1` fetches, sleeps
`2 ^ attempt * 1000` after each failed attempt except the last
(attempt 0-indexed: 1000, 2000, 4000, ...), never sleeps after the
final attempt, and raises exactly the last attempt's error. -/
theorem retry_exhaustion_spec (backend : Nat → AttemptOutcome) (retries : Nat)
    (h : ∀ n, retryableOutcome (backend n) = true) :
    makeRequest retries backend =
      ⟨attemptOnce backend retries, retries + 1,
       (List.range retries).map (fun i => 2 ^ i * 1000)⟩ := by
  have hg := goReq_retryable backend h retries 0
  simpa [makeRequest] using hg

/-- C3 witness: with 2 configured retries an always-500 backend is
fetched 3 times with sleeps 1000 and 2000, and the 500 error of the
last attempt is raised. -/
theorem retry_exhaustion_witness :
    makeRequest 2 b500 =
      ⟨.error { message := "HTTP 500: Internal Server Error",
                status := some 500,
                statusText := some "Internal Server Error",
                data := some {} },
       3, [1000, 2000]⟩ := by
  have h := retry_exhaustion_spec b500 2 (fun _ => rfl)
  exact h.trans rfl

/-- C7 counterexample: a success response with a malformed JSON body is
NOT terminal — with one configured retry the request is fetched twice
(with a backoff sleep in between), refuting that the malformed success
body is raised immediately without retrying. -/
theorem malformed_success_retried :
    makeRequest 1 bMalformed = ⟨.error jsonSyntaxError, 2, [1000]⟩ ∧
    jsonSyntaxError.status = none := by
  exact ⟨rfl, rfl⟩

/-- C7 amended: a malformed success-body raises the status-less JSON
parse error, and the executor treats it as RETRYABLE: every configured
retry is consumed (with the usual backoff) before the parse error is
finally raised. -/
theorem malformed_success_retryable (backend : Nat → AttemptOutcome)
    (retries : Nat)
    (h : ∀ n, ∃ r : Response,
      backend n = .resp r ∧ r.ok = true ∧ r.jsonBody = none) :
    makeRequest retries backend =
      ⟨.error jsonSyntaxError, retries + 1,
       (List.range retries).map (fun i => 2 ^ i * 1000)⟩ ∧
    jsonSyntaxError.status = none := by
  have hr : ∀ n, retryableOutcome (backend n) = true := by
    intro n
    obtain ⟨r, hb, hok, hnone⟩ := h n
    simp [retryableOutcome, hb, hok, hnone]
  have hg := goReq_retryable backend hr retries 0
  have hmain : makeRequest retries backend =
      ⟨attemptOnce backend retries, retries + 1,
       (List.range retries).map (fun i => 2 ^ i * 1000)⟩ := by
    simpa [makeRequest] using hg
  obtain ⟨r, hb, hok, hnone⟩ := h retries
  have hao : attemptOnce backend retries = .error jsonSyntaxError := by
    simp [attemptOnce, hb, hok, hnone]
  rw [hao] at hmain
  exact ⟨hmain, rfl⟩

/-- C7 witness: with 2 configured retries the always-malformed-2xx
backend is fetched 3 times, sleeping 1000 then 2000, and the raised
error is the parse error. -/
theorem malformed_success_witness :
    makeRequest 2 bMalformed =
      ⟨.error jsonSyntaxError, 3, [1000, 2000]⟩ := by
  have h := malformed_success_retryable bMalformed 2
    (fun _ => ⟨⟨200, "OK", none⟩, rfl, rfl, rfl⟩)
  exact h.1.trans rfl

/-- C1 counterexample: when the caller supplies any `headers` option,
the trailing `...options` spread replaces the merged header object, so
the outgoing request carries NO Authorization header — refuting that
caller-supplied headers can never cause the credential header to be
absent. -/
theorem auth_header_dropped :
    objGet (finalHeaders "k" { headers := some [("X-Custom", "y")] })
      "Authorization" = none := rfl

/-- C1 amended: with no caller-supplied `headers` option the request
carries the bearer credential, content-type and client-identifier
headers; a caller-supplied `headers` object replaces the default set
wholesale, so the credential header is exactly whatever the caller's
object binds for it (absent when the caller omits it). -/
theorem request_headers_spec (apiKey : String) (hs : List (String × String))
    (options : ReqOptions) :
    (options.headers = none →
      objGet (finalHeaders apiKey options) "Authorization"
          = some ("Bearer " ++ apiKey) ∧
      objGet (finalHeaders apiKey options) "Content-Type"
          = some "application/json" ∧
      objGet (finalHeaders apiKey options) "User-Agent"
          = some "SoftoVault-SDK/0.1.0") ∧
    (options.headers = some hs →
      finalHeaders apiKey options = hs ∧
      objGet (finalHeaders apiKey options) "Authorization"
          = objGet hs "Authorization") := by
  obtain ⟨oh⟩ := options
  cases oh with
  | none =>
    refine ⟨fun _ => ⟨rfl, rfl, rfl⟩, fun hcon => ?_⟩
    exact Option.noConfusion hcon
  | some h' =>
    refine ⟨fun hcon => Option.noConfusion hcon, fun hsome => ?_⟩
    obtain rfl : h' = hs := by injection hsome
    exact ⟨rfl, rfl⟩

/-- C1 witness: concrete header outcomes with no `headers` option and
with a caller-supplied one that re-includes the credential. -/
theorem request_headers_witness :
    objGet (finalHeaders "key1" {}) "Authorization" = some "Bearer key1" ∧
    objGet (finalHeaders "key1" {}) "Content-Type"
        = some "application/json" ∧
    objGet (finalHeaders "key1" {}) "User-Agent"
        = some "SoftoVault-SDK/0.1.0" ∧
    finalHeaders "key1" { headers := some [("Authorization", "Bearer mine")] }
        = [("Authorization", "Bearer mine")] := by
  have h1 := (request_headers_spec "key1" [] {}).1 rfl
  have h2 := (request_headers_spec "key1" [("Authorization", "Bearer mine")]
    { headers := some [("Authorization", "Bearer mine")] }).2 rfl
  exact ⟨h1.1.trans rfl, h1.2.1, h1.2.2, h2.1⟩

/-- C4 counterexample: an entry present with `storedAt = 0` and elapsed
time below the TTL is reported INVALID (the source returns
`timestamp && ...` and `0` is falsy), refuting "valid iff present and
now - storedAt < ttl". -/
theorem cache_zero_timestamp :
    isCacheValid zeroTsState 5 "k" = false ∧
    (zeroTsState.cache "k").isSome = true ∧
    zeroTsState.cacheTimestamps "k" = some 0 ∧
    (5 : Int) - 0 < zeroTsState.cacheTTL := by decide

/-- C4 amended: on a cache-enabled instance a lookup reports an entry
valid iff it is present, its timestamp is present and NONZERO, and
`now - storedAt < ttl`; in particular elapsed time exactly equal to the
TTL is invalid. Lookup is a pure read (the model's state is untouched),
and a later put overwrites both value and timestamp of the key. -/
theorem cache_validity_spec (s : VaultState) (now : Int) (key : String)
    (v : SecretVal) (t : Int) (henabled : s.cacheEnabled = true) :
    (isCacheValid s now key = true ↔
      ((s.cache key).isSome = true ∧
       ∃ ts, s.cacheTimestamps key = some ts ∧ ts ≠ 0 ∧
         now - ts < s.cacheTTL)) ∧
    (s.cacheTimestamps key = some t → now - t = s.cacheTTL →
      isCacheValid s now key = false) ∧
    ((setCache s now key v).cache key = some v ∧
     (setCache s now key v).cacheTimestamps key = some now) := by
  refine ⟨?_, ?_, ?_, ?_⟩
  · simp only [isCacheValid, henabled]
    cases hc : s.cache key with
    | none => simp
    | some cv =>
      cases ht : s.cacheTimestamps key with
      | none => simp [ht]
      | some ts =>
        by_cases hcond : ts ≠ 0 ∧ now - ts < s.cacheTTL
        · simp [ht, hcond]
        · simp only [ht, if_neg hcond]
          simp only [Option.isSome_some, Option.some.injEq, true_and]
          constructor
          · intro hfalse
            exact absurd hfalse (by simp)
          · rintro ⟨ts', rfl, h1, h2⟩
            exact absurd ⟨h1, h2⟩ hcond
  · intro htt heq
    simp only [isCacheValid, henabled]
    cases hc : s.cache key with
    | none => simp
    | some cv =>
      simp [hc, htt]
      intro _
      omega
  · simp [setCache, henabled]
  · simp [setCache, henabled]

/-- C4 witness: at elapsed time 4 the entry is valid, at elapsed time
exactly the TTL it is invalid, and a put overwrites the entry. -/
theorem cache_validity_witness :
    isCacheValid cacheStateW 7 "k" = true ∧
    isCacheValid cacheStateW 13 "k" = false ∧
    (setCache cacheStateW 7 "k" (some "w")).cache "k" = some (some "w") := by
  have h7 := cache_validity_spec cacheStateW 7 "k" (some "w") 3 rfl
  have h13 := cache_validity_spec cacheStateW 13 "k" (some "w") 3 rfl
  exact ⟨h7.1.mpr ⟨rfl, 3, rfl, by decide, by decide⟩,
    h13.2.1 rfl (by decide), h7.2.2.1⟩

/-- C6: `get` on an empty-string key (and, via `getMany`'s dynamic
call, on a non-string key) fails with the InvalidArgument error and
zero fetches; when the request error has status 404, `get` raises the
NotFound error whose message interpolates the requested key; when the
request succeeds, `get` returns the payload's `value` field. -/
theorem get_key_validation_spec (s : VaultState) (net : Net) (now : Int)
    (key : String) (useCache : Bool) (hk : key ≠ "")
    (hmiss : (useCache && isCacheValid s now (secretCacheKey key)) = false) :
    ((vaultGet s net now "" useCache).result = .error invalidKeyError ∧
     (vaultGet s net now "" useCache).fetchCalls = 0 ∧
     (∀ n : Int,
       (getDyn s net now (.num n) useCache).result = .error invalidKeyError ∧
       (getDyn s net now (.num n) useCache).fetchCalls = 0)) ∧
    (∀ e, (makeRequest s.retries (net (.secret key))).result = .error e →
      e.status = some 404 →
        (vaultGet s net now key useCache).result = .error (notFoundError key) ∧
        (∃ a b, (notFoundError key).message = a ++ key ++ b)) ∧
    (∀ d, (makeRequest s.retries (net (.secret key))).result = .ok d →
      (vaultGet s net now key useCache).result = .ok d.value) := by
  refine ⟨⟨rfl, rfl, fun _ => ⟨rfl, rfl⟩⟩, ?_, ?_⟩
  · intro e hrun h404
    refine ⟨?_, "Secret with key \x27", "\x27 not found", rfl⟩
    simp [vaultGet, hk, hmiss, hrun, h404]
  · intro d hrun
    simp [vaultGet, hk, hmiss, hrun]

/-- C6 witness: concrete validation failure, NotFound mapping naming
"missing-key", and success returning the payload value. -/
theorem get_key_validation_witness :
    (vaultGet sPlain netAB 0 "" true).result = .error invalidKeyError ∧
    (vaultGet sPlain netAB 0 "missing-key" true).result
        = .error (notFoundError "missing-key") ∧
    (notFoundError "missing-key").message
        = "Secret with key \x27missing-key\x27 not found" ∧
    (vaultGet sPlain netAB 0 "a" true).result = .ok (some "va") := by
  have h := get_key_validation_spec sPlain netAB 0 "missing-key" true
    (by decide) rfl
  have ha := get_key_validation_spec sPlain netAB 0 "a" true (by decide) rfl
  refine ⟨h.1.1, ?_, rfl, ?_⟩
  · exact (h.2.1 (httpErrorOf ⟨404, "Not Found", some {}⟩) rfl rfl).1
  · exact ha.2.2 { value := some "va" } rfl

/-- C9: on a cache-enabled instance, after a successful fetching
`get(key)` at time `t0`, a second `get(key)` at any time `t1` with
`t1 - t0 < ttl` performs no fetch (for ANY backend), returns the same
value, and leaves the state unchanged; `clearCache` removes every
entry, and the next `get(key)` after it performs a fetch again. The
hypothesis `t0 ≠ 0` reflects that a `Date.now()` of exactly 0 would be
falsy (see the C4 analysis); real clock values are nonzero. -/
theorem cache_roundtrip_spec (s : VaultState) (net net2 net3 : Net)
    (t0 t1 t2 : Int) (key : String) (d : JsonVal)
    (henabled : s.cacheEnabled = true) (hk : key ≠ "") (ht0 : t0 ≠ 0)
    (hmiss : isCacheValid s t0 (secretCacheKey key) = false)
    (hok : (makeRequest s.retries (net (.secret key))).result = .ok d)
    (hfresh : t1 - t0 < s.cacheTTL) :
    (vaultGet s net t0 key true).result = .ok d.value ∧
    1 ≤ (vaultGet s net t0 key true).fetchCalls ∧
    (vaultGet (vaultGet s net t0 key true).state net2 t1 key true).result
        = .ok d.value ∧
    (vaultGet (vaultGet s net t0 key true).state net2 t1 key true).fetchCalls
        = 0 ∧
    (vaultGet (vaultGet s net t0 key true).state net2 t1 key true).state
        = (vaultGet s net t0 key true).state ∧
    (∀ x, (clearCache (vaultGet s net t0 key true).state).cache x = none) ∧
    1 ≤ (vaultGet (clearCache (vaultGet s net t0 key true).state)
          net3 t2 key true).fetchCalls := by
  have hres : (vaultGet s net t0 key true).result = .ok d.value := by
    simp [vaultGet, hk, hmiss, hok]
  have hstate : (vaultGet s net t0 key true).state
      = setCache s t0 (secretCacheKey key) d.value := by
    simp [vaultGet, hk, hmiss, hok]
  have hcalls : (vaultGet s net t0 key true).fetchCalls
      = (makeRequest s.retries (net (.secret key))).attempts := by
    simp [vaultGet, hk, hmiss, hok]
  have hone : 1 ≤ (makeRequest s.retries (net (.secret key))).attempts :=
    one_le_attempts (net (.secret key)) 0 s.retries
  have hsen : (setCache s t0 (secretCacheKey key) d.value).cacheEnabled
      = true := by
    simp [setCache, henabled]
  have hsttl : (setCache s t0 (secretCacheKey key) d.value).cacheTTL
      = s.cacheTTL := by
    simp [setCache, henabled]
  have hscache : (setCache s t0 (secretCacheKey key) d.value).cache
      (secretCacheKey key) = some d.value := by
    simp [setCache, henabled]
  have hsts : (setCache s t0 (secretCacheKey key) d.value).cacheTimestamps
      (secretCacheKey key) = some t0 := by
    simp [setCache, henabled]
  have hvalid : isCacheValid (setCache s t0 (secretCacheKey key) d.value)
      t1 (secretCacheKey key) = true := by
    simp only [isCacheValid, hsen, hscache, hsts, hsttl]
    simp [ht0, hfresh]
  have h2res : (vaultGet (setCache s t0 (secretCacheKey key) d.value)
      net2 t1 key true).result = .ok d.value := by
    simp [vaultGet, hk, hvalid, hscache]
  have h2calls : (vaultGet (setCache s t0 (secretCacheKey key) d.value)
      net2 t1 key true).fetchCalls = 0 := by
    simp [vaultGet, hk, hvalid]
  have h2state : (vaultGet (setCache s t0 (secretCacheKey key) d.value)
      net2 t1 key true).state
      = setCache s t0 (secretCacheKey key) d.value := by
    simp [vaultGet, hk, hvalid]
  have hclear : ∀ x,
      (clearCache (setCache s t0 (secretCacheKey key) d.value)).cache x
        = none := by
    intro x
    simp [clearCache, hsen]
  have hccen : (clearCache (setCache s t0 (secretCacheKey key) d.value)).cacheEnabled = true := by
    simp [clearCache, hsen]
  have hinvalid : isCacheValid
      (clearCache (setCache s t0 (secretCacheKey key) d.value)) t2
      (secretCacheKey key) = false := by
    simp [isCacheValid, hccen, hclear]
  have h3 : 1 ≤ (vaultGet
      (clearCache (setCache s t0 (secretCacheKey key) d.value))
      net3 t2 key true).fetchCalls := by
    have hone3 := one_le_attempts (net3 (.secret key)) 0
      (clearCache (setCache s t0 (secretCacheKey key) d.value)).retries
    cases hr : (makeRequest
        (clearCache (setCache s t0 (secretCacheKey key) d.value)).retries
        (net3 (.secret key))).result with
    | ok d3 =>
      simp [vaultGet, hk, hinvalid, hr]
      exact hone3
    | error e3 =>
      by_cases h404 : e3.status = some 404
      · simp [vaultGet, hk, hinvalid, hr, h404]
        exact hone3
      · simp [vaultGet, hk, hinvalid, hr, h404]
        exact hone3
  rw [hstate]
  exact ⟨hres, by rw [hcalls]; exact hone, h2res, h2calls, h2state, hclear, h3⟩

/-- C9 witness: fetch at time 1000, cache hit at 1500 against a dead
backend returning the same value with zero fetches, and a fetch again
after `clearCache`. -/
theorem cache_roundtrip_witness :
    (vaultGet sCacheOn netX 1000 "X" true).result = .ok (some "vx") ∧
    (vaultGet (vaultGet sCacheOn netX 1000 "X" true).state
      netDead 1500 "X" true).result = .ok (some "vx") ∧
    (vaultGet (vaultGet sCacheOn netX 1000 "X" true).state
      netDead 1500 "X" true).fetchCalls = 0 ∧
    1 ≤ (vaultGet (clearCache (vaultGet sCacheOn netX 1000 "X" true).state)
      netX 2000 "X" true).fetchCalls := by
  have h := cache_roundtrip_spec sCacheOn netX netDead netX 1000 1500 2000
    "X" { value := some "vx" } rfl (by decide) (by decide) rfl rfl (by decide)
  exact ⟨h.1, h.2.2.1, h.2.2.2.1, h.2.2.2.2.2.2⟩

/-- A string contains its own suffix; witnesses position `a.length`. -/
theorem containsSub_append (a b : String) : containsSub (a ++ b) b = true := by
  simp only [containsSub, listHasSub, List.any_eq_true, List.mem_range]
  refine ⟨a.data.length, ?_, ?_⟩
  · rw [String.data_append, List.length_append]
    omega
  · rw [String.data_append, List.drop_left]
    exact List.isPrefixOf_iff_prefix.mpr (List.prefix_refl b.data)

/-- C10: the NotFound error `get` raises on a remote 404 is a fresh
plain error: its message interpolates the key and ends in "not found",
while its `status`, `statusText` and `data` properties are all absent —
so the 404 origin is not observable from the error object; and
`exists` maps ANY error propagated from `get` whose message contains
"not found" (whatever its `status`) to `false`. -/
theorem notfound_by_message_spec (s : VaultState) (net : Net) (now : Int)
    (key : String) (hk : key ≠ "")
    (hmiss : isCacheValid s now (secretCacheKey key) = false) :
    (∀ e, (makeRequest s.retries (net (.secret key))).result = .error e →
      e.status = some 404 →
        (vaultGet s net now key true).result = .error (notFoundError key) ∧
        (notFoundError key).status = none ∧
        (notFoundError key).statusText = none ∧
        (notFoundError key).data = none ∧
        (∃ a, (notFoundError key).message = a ++ "not found") ∧
        containsSub (notFoundError key).message "not found" = true) ∧
    (∀ e, (vaultGet s net now key true).result = .error e →
      containsSub e.message "not found" = true →
      vaultExists s net now key = .ok false) := by
  have hmsg : (notFoundError key).message
      = ("Secret with key \x27" ++ key ++ "\x27 ") ++ "not found" := by
    show ("Secret with key \x27" ++ key) ++ "\x27 not found"
        = ("Secret with key \x27" ++ key ++ "\x27 ") ++ "not found"
    conv_lhs =>
      rw [show ("\x27 not found" : String) = "\x27 " ++ "not found" from rfl]
    rw [← String.append_assoc]
  constructor
  · intro e hrun h404
    refine ⟨?_, rfl, rfl, rfl, ⟨_, hmsg⟩, ?_⟩
    · simp [vaultGet, hk, hmiss, hrun, h404]
    · rw [hmsg]
      exact containsSub_append _ _
  · intro e hres hsub
    simp only [vaultExists, hres]
    rw [if_pos (Or.inr hsub)]

/-- C10 witness: the 404-mapped error for key "nope" carries no status,
its message contains "not found", and `exists` maps it to `false`. -/
theorem notfound_by_message_witness :
    (vaultGet sPlain netAB 0 "nope" true).result
        = .error (notFoundError "nope") ∧
    (notFoundError "nope").status = none ∧
    containsSub (notFoundError "nope").message "not found" = true ∧
    vaultExists sPlain netAB 0 "nope" = .ok false := by
  have h := notfound_by_message_spec sPlain netAB 0 "nope" (by decide) rfl
  have h1 := h.1 (httpErrorOf ⟨404, "Not Found", some {}⟩) rfl rfl
  exact ⟨h1.1, h1.2.1, h1.2.2.2.2.2, h.2 (notFoundError "nope") h1.1
    h1.2.2.2.2.2⟩

/-- With `failOnMissing` unset, settling keys never touches the errors
list. -/
theorem manyStep_errors_false (s : VaultState) (net : Net) (now : Int)
    (u : Bool) :
    ∀ (ks : List JKey) (m0 : ResultsMap) (es0 : List (String × String)),
      (ks.foldl (manyStep s net now u false) (m0, es0)).2 = es0 := by
  intro ks
  induction ks with
  | nil => intro m0 es0; rfl
  | cons a t ih =>
    intro m0 es0
    simp only [List.foldl_cons]
    cases hres : (getDyn s net now a u).result with
    | ok v => simpa [manyStep, hres] using ih _ _
    | error e => simpa [manyStep, hres] using ih _ _

/-- With `failOnMissing` set, the errors list accumulated over string
keys is exactly the failing keys with their error messages, in input
order. -/
theorem manyStep_errors_true (s : VaultState) (net : Net) (now : Int)
    (u : Bool) :
    ∀ (keys : List String) (m0 : ResultsMap) (es0 : List (String × String)),
      ((keys.map JKey.str).foldl (manyStep s net now u true) (m0, es0)).2
        = es0 ++ (keys.filter (fun k => strFails s net now u k)).map
            (fun k => (k, strErrMsg s net now u k)) := by
  intro keys
  induction keys with
  | nil => intro m0 es0; simp
  | cons a t ih =>
    intro m0 es0
    simp only [List.map_cons, List.foldl_cons]
    cases hres : (vaultGet s net now a u).result with
    | ok v =>
      have hfail : strFails s net now u a = false := by simp [strFails, hres]
      rw [show manyStep s net now u true (m0, es0) (JKey.str a)
          = (updateMap m0 a (.val v), es0) from by
        simp [manyStep, getDyn, hres, propKey]]
      rw [ih _ _]
      simp [List.filter_cons, hfail]
    | error e =>
      have hfail : strFails s net now u a = true := by simp [strFails, hres]
      have hmsg : strErrMsg s net now u a = e.message := by
        simp [strErrMsg, hres]
      rw [show manyStep s net now u true (m0, es0) (JKey.str a)
          = (m0, es0 ++ [(a, e.message)]) from by
        simp [manyStep, getDyn, hres, propKey]]
      rw [ih _ _]
      simp [List.filter_cons, hfail, hmsg]

/-- Settling keys only writes `results` properties named by the keys'
property names. -/
theorem manyStep_map_preserve (s : VaultState) (net : Net) (now : Int)
    (u fom : Bool) :
    ∀ (ks : List JKey) (m0 : ResultsMap) (es0 : List (String × String))
      (x : String), (∀ k ∈ ks, propKey k ≠ x) →
      ((ks.foldl (manyStep s net now u fom) (m0, es0)).1) x = m0 x := by
  intro ks
  induction ks with
  | nil => intros; rfl
  | cons a t ih =>
    intro m0 es0 x hx
    simp only [List.foldl_cons]
    have hax : x ≠ propKey a := Ne.symm (hx a (by simp))
    have htx : ∀ k ∈ t, propKey k ≠ x := fun k hk => hx k (by simp [hk])
    cases hres : (getDyn s net now a u).result with
    | ok v =>
      rw [show manyStep s net now u fom (m0, es0) a
          = (updateMap m0 (propKey a) (.val v), es0) from by
        simp [manyStep, hres]]
      rw [ih _ _ _ htx]
      simp [updateMap, hax]
    | error e =>
      cases fom with
      | true =>
        rw [show manyStep s net now u true (m0, es0) a
            = (m0, es0 ++ [(propKey a, e.message)]) from by
          simp [manyStep, hres]]
        exact ih _ _ _ htx
      | false =>
        rw [show manyStep s net now u false (m0, es0) a
            = (updateMap m0 (propKey a) .nullv, es0) from by
          simp [manyStep, hres]]
        rw [ih _ _ _ htx]
        simp [updateMap, hax]

/-- With `failOnMissing` unset, every requested string key ends up in
`results` with its per-key outcome (value or `null`). -/
theorem manyStep_map_mem (s : VaultState) (net : Net) (now : Int)
    (u : Bool) :
    ∀ (keys : List String) (m0 : ResultsMap)
      (es0 : List (String × String)) (x : String), x ∈ keys →
      (((keys.map JKey.str).foldl (manyStep s net now u false)
        (m0, es0)).1) x = some (strOutcome s net now u x) := by
  intro keys
  induction keys with
  | nil => intro _ _ _ hx; simp at hx
  | cons a t ih =>
    intro m0 es0 x hx
    simp only [List.map_cons, List.foldl_cons]
    by_cases hxt : x ∈ t
    · exact ih _ _ x hxt
    · have hxa : x = a := by
        rcases List.mem_cons.mp hx with h | h
        · exact h
        · exact absurd h hxt
      subst hxa
      have hnot : ∀ k ∈ t.map JKey.str, propKey k ≠ x := by
        intro k hk
        obtain ⟨k', hk', rfl⟩ := List.mem_map.mp hk
        intro he
        have hkx : k' = x := by simpa [propKey] using he
        exact hxt (hkx ▸ hk')
      rw [manyStep_map_preserve s net now u false _ _ _ _ hnot]
      cases hres : (vaultGet s net now x u).result with
      | ok v => simp [manyStep, getDyn, hres, propKey, updateMap, strOutcome]
      | error e => simp [manyStep, getDyn, hres, propKey, updateMap, strOutcome]

/-- C5: for every backend and list of string keys, `getMany` with
`failOnMissing` unset succeeds and maps each requested key to its
fetched value or to `null` on per-key failure; with `failOnMissing`
set it raises, once all keys have been settled, the single aggregate
error listing every failed key with its reason — and succeeds when no
key fails. -/
theorem getMany_partition_spec (s : VaultState) (net : Net) (now : Int)
    (keys : List String) (useCache : Bool) :
    (∃ m, getMany s net now (.arr (keys.map .str)) useCache false = .ok m ∧
      ∀ k ∈ keys, m k = some (strOutcome s net now useCache k)) ∧
    ((∃ k ∈ keys, strFails s net now useCache k = true) →
      getMany s net now (.arr (keys.map .str)) useCache true =
        .error { message := (aggMessage
          ((keys.filter (fun k => strFails s net now useCache k)).map
            (fun k => (k, strErrMsg s net now useCache k)))) }) ∧
    ((∀ k ∈ keys, strFails s net now useCache k = false) →
      ∃ m, getMany s net now (.arr (keys.map .str)) useCache true = .ok m) := by
  refine ⟨?_, ?_, ?_⟩
  · refine ⟨((keys.map JKey.str).foldl (manyStep s net now useCache false)
      (fun _ => none, [])).1, ?_, ?_⟩
    · simp [getMany]
    · intro k hk
      exact manyStep_map_mem s net now useCache keys _ _ k hk
  · rintro ⟨k0, hk0, hfail⟩
    have herr := manyStep_errors_true s net now useCache keys
      (fun _ => none) []
    have hmem : k0 ∈ keys.filter (fun k => strFails s net now useCache k) :=
      List.mem_filter.mpr ⟨hk0, by simp [hfail]⟩
    have hne : 0 < (keys.filter
        (fun k => strFails s net now useCache k)).length :=
      List.length_pos.mpr (fun hnil => by simp [hnil] at hmem)
    simp only [getMany, herr, List.nil_append]
    rw [if_pos]
    constructor
    · simpa using hne
    · trivial
  · intro hall
    have herr := manyStep_errors_true s net now useCache keys
      (fun _ => none) []
    have hfilter : keys.filter (fun k => strFails s net now useCache k)
        = [] :=
      List.filter_eq_nil_iff.mpr (fun k hk => by simp [hall k hk])
    simp only [getMany, herr, hfilter, List.nil_append]
    simp

/-- C5 witness: against the backend where "a" exists and "b" answers
404, `getMany(["a","b"])` returns the value for "a" and `null` for "b"
in default mode, and with `failOnMissing` raises the aggregate error
naming "b" and its NotFound reason. -/
theorem getMany_partition_witness :
    (∃ m, getMany sPlain netAB 0 (.arr [JKey.str "a", JKey.str "b"])
        true false = .ok m ∧
      m "a" = some (RVal.val (some "va")) ∧ m "b" = some RVal.nullv) ∧
    getMany sPlain netAB 0 (.arr [JKey.str "a", JKey.str "b"]) true true
      = .error { message :=
          "Failed to retrieve secrets: b: Secret with key \x27b\x27 not found" } := by
  have h := getMany_partition_spec sPlain netAB 0 ["a", "b"] true
  constructor
  · obtain ⟨m, hm, hpt⟩ := h.1
    exact ⟨m, hm, (hpt "a" (by simp)).trans rfl,
      (hpt "b" (by simp)).trans rfl⟩
  · exact (h.2.1 ⟨"b", by simp, rfl⟩).trans rfl

/-- C8 counterexample: `getMany` on an array containing the non-string
element `42` does NOT fail with an InvalidArgument error — it succeeds,
recording `null` under the coerced property key "42" (the per-element
validation error from `get` is swallowed per-key). -/
theorem getMany_nonstring_ok :
    isOkE (getMany sPlain netAB 0 (.arr [JKey.num 42]) true false) = true ∧
    resultAt (getMany sPlain netAB 0 (.arr [JKey.num 42]) true false) "42"
      = some RVal.nullv := ⟨rfl, rfl⟩

/-- C8 amended: only a non-array `keys` argument makes `getMany` fail
with the InvalidArgument error "Keys must be an array"; an array is
accepted whatever its elements (in default mode the call always
succeeds), and an element that is not a non-empty string merely makes
that element's `get` fail with the key-validation error and no fetch,
which `getMany` handles per-key like any other failure. -/
theorem getMany_array_validation_spec (s : VaultState) (net : Net)
    (now : Int) (useCache fom : Bool) (ks : List JKey) :
    getMany s net now .notArray useCache fom = .error notArrayError ∧
    isOkE (getMany s net now (.arr ks) useCache false) = true ∧
    (∀ k ∈ ks, isNonEmptyStr k = false →
      (getDyn s net now k useCache).result = .error invalidKeyError ∧
      (getDyn s net now k useCache).fetchCalls = 0) := by
  refine ⟨rfl, ?_, ?_⟩
  · have herr := manyStep_errors_false s net now useCache ks
      (fun _ => none) []
    simp [getMany, herr, isOkE]
  · intro k hk hns
    cases k with
    | str s' =>
      have hs' : s' = "" := by
        by_contra hne
        simp [isNonEmptyStr, hne] at hns
      subst hs'
      exact ⟨rfl, rfl⟩
    | num n => exact ⟨rfl, rfl⟩

/-- C8 witness: a non-array argument raises "Keys must be an array"; an
array holding the number 7 and the empty string still succeeds, while
`get` itself rejects the number 7 with the validation error. -/
theorem getMany_array_validation_witness :
    getMany sPlain netAB 0 .notArray true false = .error notArrayError ∧
    isOkE (getMany sPlain netAB 0 (.arr [JKey.num 7, JKey.str ""])
      true false) = true ∧
    (getDyn sPlain netAB 0 (JKey.num 7) true).result
      = .error invalidKeyError := by
  have h := getMany_array_validation_spec sPlain netAB 0 true false
    [JKey.num 7, JKey.str ""]
  exact ⟨h.1, h.2.1, (h.2.2 (JKey.num 7) (by simp) rfl).1⟩

end SoftoVault
